import Mathlib

/-!
Verification of the skill-rating and match-statistics engine of the GoA-Timer
repository (a companion app for the board game Guards of Atlantis).

The embedding below translates the TypeScript sources into Lean:

* `src/services/database/models.ts` — data model (`DBPlayer`, `DBMatch`,
  `DBMatchPlayer`) and the constants `INITIAL_ELO`, `TRUESKILL_BETA`,
  `TRUESKILL_TAU`.
* `src/services/firebase/FirebaseValidationService.ts` — `validateMatchEdit`
  and `validateNewMatch`.
* `src/services/firebase/FirebaseStatsService.ts` — `recalculatePlayerStats`.
* `src/services/database/MatchMakingService.ts` — `calculateWinProbabilityWithCI`,
  `generateBalancedTeams`, `generateBalancedTeamsByExperience`.
* `src/services/database/MatchService.ts` — `recordMatch`, `deleteMatch`
  (pure data transitions; the IndexedDB stores are modelled as lists keyed
  by `id`, a `put` is replace-or-append).
* `src/services/database/PlayerService.ts` — `createPlayer`, `getDisplayRating`.

Modelling conventions:
* JavaScript numbers that hold ratings are embedded as `ℚ`; counters and
  timestamps as `Int`/`Nat`; `Date` values as integer epoch timestamps.
* `Math.round x` is `⌊x + 1/2⌋` (JS rounds half-way cases toward +∞).
* `undefined`-able fields are `Option`s.
* JS `Array.prototype.sort` is a stable sort with respect to the supplied
  comparator; it is embedded as the stable `List.insertionSort`.
* The external library functions that are not part of this repository are
  abstracted as explicit function parameters: `openskill.rate` becomes a
  `RateFn` argument of the recalculation engine, and the `normal-distribution`
  CDF and `Math.sqrt` become arguments of the win-probability computation.
  Every theorem quantifying over these parameters in particular holds for
  the concrete library functions.
* Template strings in validation messages are embedded as the inductive
  `VMessage`, each constructor carrying exactly the data interpolated into
  the corresponding template string.
* Wall-clock reads (`new Date()`) are passed in as explicit `now` /
  `oneYearAgo` parameters.
-/

namespace GoA

/-- From `src/types.ts`: the two teams of a match. -/
inductive Team where
  | Titans
  | Atlanteans
deriving DecidableEq, Repr

/-- From `src/types.ts`: game length classification. -/
inductive GameLength where
  | Quick
  | Long
deriving DecidableEq, Repr

/-- `INITIAL_ELO` from `models.ts`. -/
def INITIAL_ELO : Int := 1200

/-- `TRUESKILL_BETA = 25/6` from `models.ts`. -/
def TRUESKILL_BETA : ℚ := 25 / 6

/-- `TRUESKILL_TAU = 25/300` from `models.ts`. -/
def TRUESKILL_TAU : ℚ := 25 / 300

/-- A TrueSkill/openskill belief `{mu, sigma}` (the shape produced by
`openskill.rating()`). -/
structure Rating where
  mu : ℚ
  sigma : ℚ
deriving DecidableEq, Repr

/-- `openskill.rating()` with no arguments: the default belief
`mu = 25`, `sigma = 25/3`. -/
def defaultRating : Rating := ⟨25, 25 / 3⟩

/-- `openskill.ordinal r = mu - 3 * sigma` (the library's default `z = 3`). -/
def ordinalOf (r : Rating) : ℚ := r.mu - 3 * r.sigma

/-- JavaScript `Math.round`: round half toward positive infinity. -/
def jsRound (q : ℚ) : Int := ⌊q + 1 / 2⌋

/-- `DBPlayer` from `models.ts`. -/
structure DBPlayer where
  id : String
  name : String
  totalGames : Nat
  wins : Nat
  losses : Nat
  elo : Int
  mu : Option ℚ
  sigma : Option ℚ
  ordinal : Option ℚ
  lastPlayed : Int
  dateCreated : Int
  deviceId : Option String
  level : Option Int
deriving DecidableEq, Repr

/-- `DBMatch` from `models.ts`. -/
structure DBMatch where
  id : String
  date : Int
  winningTeam : Team
  gameLength : GameLength
  doubleLanes : Bool
  titanPlayers : Nat
  atlanteanPlayers : Nat
  deviceId : Option String
deriving DecidableEq, Repr

/-- `DBMatchPlayer` from `models.ts` (a match participation). -/
structure DBMatchPlayer where
  id : String
  matchId : String
  playerId : String
  team : Team
  heroId : Int
  heroName : String
  heroRoles : List String
  kills : Option Int
  deaths : Option Int
  assists : Option Int
  goldEarned : Option Int
  minionKills : Option Int
  level : Option Int
  deviceId : Option String
deriving DecidableEq, Repr

/-- Severity of a validation finding, from `models.ts` (`ValidationError.severity`). -/
inductive Severity where
  | error
  | warning
deriving DecidableEq, Repr

/-- The message template strings of `FirebaseValidationService.validateMatchEdit`,
one constructor per template, carrying the interpolated data. -/
inductive VMessage where
  | titansEmpty
  | atlanteansEmpty
  | teamSizeUnbalanced (titans atlanteans : Nat)
  | heroDuplicate (heroId : Int) (playerIds : List String)
  | killsHigh (kills : Int) (gameLength : GameLength)
  | deathsHigh (deaths : Int)
  | negativeStat (field : String)
  | levelRange
  | dateFuture
  | dateOld
deriving DecidableEq, Repr

/-- `ValidationError` from `models.ts`. -/
structure ValidationError where
  field : String
  playerId : Option String
  message : VMessage
  severity : Severity
deriving DecidableEq, Repr

/-- `ValidationResult` from `models.ts`. -/
structure ValidationResult where
  isValid : Bool
  errors : List ValidationError
  warnings : List ValidationError
deriving DecidableEq, Repr

/-- The `heroUsage` map accumulation step of `validateMatchEdit`: a JS `Map`
keyed by `heroId`, preserving key insertion order, each key holding the list
of `playerId`s pushed for it.  The map is embedded as an association list. -/
def huStep (acc : List (Int × List String)) (mp : DBMatchPlayer) :
    List (Int × List String) :=
  if acc.any (fun e => decide (e.1 = mp.heroId)) then
    acc.map (fun e => if e.1 = mp.heroId then (e.1, e.2 ++ [mp.playerId]) else e)
  else
    acc ++ [(mp.heroId, [mp.playerId])]

/-- The fully built `heroUsage` map of `validateMatchEdit`. -/
def heroUsage (playersData : List DBMatchPlayer) : List (Int × List String) :=
  playersData.foldl huStep []

/-- The hero-duplication errors of `validateMatchEdit`: one error per map
entry with more than one player, in key insertion order. -/
def heroErrors (playersData : List DBMatchPlayer) : List ValidationError :=
  ((heroUsage playersData).filter (fun e => decide (1 < e.2.length))).map
    (fun e => ⟨"hero", none, .heroDuplicate e.1 e.2, .error⟩)

/-- The players to whom a given hero is assigned, in participation order —
exactly the player list interpolated into the hero-duplication message. -/
def heroPlayers (playersData : List DBMatchPlayer) (h : Int) : List String :=
  (playersData.filter (fun mp => decide (mp.heroId = h))).map (fun mp => mp.playerId)

/-- Lookup in the association-list embedding of the `heroUsage` map. -/
def huLookup (acc : List (Int × List String)) (h : Int) : Option (List String) :=
  (acc.find? (fun e => decide (e.1 = h))).map (fun e => e.2)

/-- The `['kills', 'deaths', 'assists', 'goldEarned', 'minionKills']`
field/value pairs iterated by the negative-statistics check. -/
def statFields (p : DBMatchPlayer) : List (String × Option Int) :=
  [("kills", p.kills), ("deaths", p.deaths), ("assists", p.assists),
   ("goldEarned", p.goldEarned), ("minionKills", p.minionKills)]

/-- Per-participation errors of `validateMatchEdit`: negative statistics and
out-of-range `level`. -/
def playerErrors (p : DBMatchPlayer) : List ValidationError :=
  ((statFields p).flatMap fun fv =>
    match fv.2 with
    | some v => if v < 0 then [⟨fv.1, some p.playerId, .negativeStat fv.1, .error⟩] else []
    | none => []) ++
  (match p.level with
   | some l => if l < 1 ∨ 10 < l then [⟨"level", some p.playerId, .levelRange, .error⟩] else []
   | none => [])

/-- Per-participation warnings of `validateMatchEdit`: a kill count above the
game-length-dependent ceiling (`10` for Quick, `20` otherwise) and a death
count above `15`.  The JS truthiness guard `player.kills && player.kills > 0`
is the `k ≠ 0 ∧ 0 < k` condition. -/
def playerWarnings (gameLength : GameLength) (p : DBMatchPlayer) : List ValidationError :=
  (match p.kills with
   | some k =>
     if k ≠ 0 ∧ 0 < k then
       (if (if gameLength = GameLength.Quick then (10 : Int) else 20) < k then
          [⟨"kills", some p.playerId, .killsHigh k gameLength, .warning⟩]
        else [])
     else []
   | none => []) ++
  (match p.deaths with
   | some d =>
     if d ≠ 0 ∧ 15 < d then [⟨"deaths", some p.playerId, .deathsHigh d, .warning⟩] else []
   | none => [])

/-- `FirebaseValidationService.validateMatchEdit`.  `now` and `oneYearAgo`
are the two wall-clock values the source computes with `new Date()`. -/
def validateMatchEdit (matchData : DBMatch) (playersData : List DBMatchPlayer)
    (now oneYearAgo : Int) : ValidationResult :=
  let titanPlayers := playersData.filter (fun p => decide (p.team = Team.Titans))
  let atlanteanPlayers := playersData.filter (fun p => decide (p.team = Team.Atlanteans))
  let teamErrors : List ValidationError :=
    (if titanPlayers.length = 0 then [⟨"teams", none, .titansEmpty, .error⟩] else []) ++
    (if atlanteanPlayers.length = 0 then [⟨"teams", none, .atlanteansEmpty, .error⟩] else [])
  let sizeDifference := ((titanPlayers.length : Int) - (atlanteanPlayers.length : Int)).natAbs
  let sizeWarnings : List ValidationError :=
    if 1 < sizeDifference then
      [⟨"teams", none, .teamSizeUnbalanced titanPlayers.length atlanteanPlayers.length,
        .warning⟩]
    else []
  let statErrors := playersData.flatMap playerErrors
  let statWarnings := playersData.flatMap (playerWarnings matchData.gameLength)
  let dateWarnings : List ValidationError :=
    (if now < matchData.date then [⟨"date", none, .dateFuture, .warning⟩] else []) ++
    (if matchData.date < oneYearAgo then [⟨"date", none, .dateOld, .warning⟩] else [])
  let errors := teamErrors ++ heroErrors playersData ++ statErrors
  let warnings := sizeWarnings ++ statWarnings ++ dateWarnings
  ⟨decide (errors.length = 0), errors, warnings⟩

/-- The `matchData` argument shape of `recordMatch` / `validateNewMatch`. -/
structure MatchData where
  date : Int
  winningTeam : Team
  gameLength : GameLength
  doubleLanes : Bool
deriving DecidableEq, Repr

/-- The per-player argument shape of `recordMatch` / `validateNewMatch`. -/
structure PlayerInput where
  id : String
  team : Team
  heroId : Int
  heroName : String
  heroRoles : List String
  kills : Option Int
  deaths : Option Int
  assists : Option Int
  goldEarned : Option Int
  minionKills : Option Int
  level : Option Int
deriving DecidableEq, Repr

/-- The `DBMatch` temporary built by `validateNewMatch`. -/
def toDBMatch (md : MatchData) (pd : List PlayerInput) : DBMatch :=
  { id := "", date := md.date, winningTeam := md.winningTeam,
    gameLength := md.gameLength, doubleLanes := md.doubleLanes,
    titanPlayers := (pd.filter (fun p => decide (p.team = Team.Titans))).length,
    atlanteanPlayers := (pd.filter (fun p => decide (p.team = Team.Atlanteans))).length,
    deviceId := none }

/-- The `DBMatchPlayer` temporaries built by `validateNewMatch`. -/
def toDBMatchPlayer (p : PlayerInput) : DBMatchPlayer :=
  { id := "", matchId := "", playerId := p.id, team := p.team, heroId := p.heroId,
    heroName := p.heroName, heroRoles := p.heroRoles, kills := p.kills,
    deaths := p.deaths, assists := p.assists, goldEarned := p.goldEarned,
    minionKills := p.minionKills, level := p.level, deviceId := none }

/-- `FirebaseValidationService.validateNewMatch`: converts and delegates to
`validateMatchEdit`. -/
def validateNewMatch (md : MatchData) (pd : List PlayerInput)
    (now oneYearAgo : Int) : ValidationResult :=
  validateMatchEdit (toDBMatch md pd) (pd.map toDBMatchPlayer) now oneYearAgo

/-- `PlayerService.getDisplayRating`: scale the stored ordinal onto the
user-facing band, falling back to the legacy `elo`. -/
def getDisplayRating (p : DBPlayer) : Int :=
  match p.ordinal with
  | some o => jsRound ((o + 25) * 40 + 200)
  | none => p.elo

/-- `PlayerService.createPlayer`: a fresh player with the default belief.
`now` stands for the two `new Date()` reads. -/
def createPlayer (playerId playerName : String) (now : Int) : DBPlayer :=
  { id := playerId, name := playerName, totalGames := 0, wins := 0, losses := 0,
    elo := INITIAL_ELO, mu := some defaultRating.mu, sigma := some defaultRating.sigma,
    ordinal := some (ordinalOf defaultRating), lastPlayed := now, dateCreated := now,
    deviceId := none, level := some 1 }

/-- The level-ratchet step of `recordMatch` (`MatchService.recordMatch` and
`FirebaseMatchService.recordMatch` share this logic verbatim): an existing
player's stored `level` is overwritten by the incoming one exactly when the
incoming level is defined and the stored one is undefined or strictly
smaller. -/
def applyLevelRatchet (existing : DBPlayer) (incomingLevel : Option Int) : DBPlayer :=
  match incomingLevel with
  | none => existing
  | some l =>
    match existing.level with
    | none => { existing with level := some l }
    | some l0 => if l0 < l then { existing with level := some l } else existing

/-! ## Matchmaking Advisor (`MatchMakingService.ts`) -/

/-- `ensureRatingsInitialized` plus the per-team lookup of
`calculateWinProbabilityWithCI`: a stored player's `{mu, sigma}` when both are
defined, the default rating otherwise (also for ids with no stored player). -/
def ratingFromStore (players : List DBPlayer) (playerId : String) : Rating :=
  match players.find? (fun p => decide (p.id = playerId)) with
  | some p =>
    match p.mu, p.sigma with
    | some m, some s => ⟨m, s⟩
    | _, _ => defaultRating
  | none => defaultRating

/-- `reduce((sum, r) => sum + r.mu, 0)`. -/
def teamMuSum (rs : List Rating) : ℚ := rs.foldl (fun s r => s + r.mu) 0

/-- `reduce((sum, r) => sum + r.sigma ** 2, 0)`. -/
def teamSigmaSqSum (rs : List Rating) : ℚ := rs.foldl (fun s r => s + r.sigma ^ 2) 0

/-- The result record of `calculateWinProbabilityWithCI`. -/
structure CIResult where
  team1Probability : Int
  team1Lower : Int
  team1Upper : Int
  team2Probability : Int
  team2Lower : Int
  team2Upper : Int
deriving DecidableEq, Repr

/-- `MatchMakingService.calculateWinProbabilityWithCI`.  The two external
numeric library functions are explicit parameters: `sqrtFn` stands for
`Math.sqrt`, and `normCdf sd x` stands for `new NormalDistribution(0, sd).cdf(x)`
from the `normal-distribution` package. -/
def calculateWinProbabilityWithCI (sqrtFn : ℚ → ℚ) (normCdf : ℚ → ℚ → ℚ)
    (players : List DBPlayer) (team1Players team2Players : List String) : CIResult :=
  let team1Ratings := team1Players.map (ratingFromStore players)
  let team2Ratings := team2Players.map (ratingFromStore players)
  let team1Mu := teamMuSum team1Ratings
  let team1SkillVariance := teamSigmaSqSum team1Ratings
  let team1PerformanceVariance :=
    team1SkillVariance + (team1Ratings.length : ℚ) * TRUESKILL_BETA ^ 2
  let team2Mu := teamMuSum team2Ratings
  let team2SkillVariance := teamSigmaSqSum team2Ratings
  let team2PerformanceVariance :=
    team2SkillVariance + (team2Ratings.length : ℚ) * TRUESKILL_BETA ^ 2
  let deltaMu := team1Mu - team2Mu
  let deltaPerformanceVariance := team1PerformanceVariance + team2PerformanceVariance
  let deltaPerformanceSigma := sqrtFn deltaPerformanceVariance
  let winProb := normCdf deltaPerformanceSigma deltaMu
  let deltaSkillVariance := team1SkillVariance + team2SkillVariance
  let deltaSkillSigma := sqrtFn deltaSkillVariance
  let ciMargin := (196 / 100 : ℚ) * deltaSkillSigma
  let lowerWinProb := normCdf deltaPerformanceSigma (deltaMu - ciMargin)
  let upperWinProb := normCdf deltaPerformanceSigma (deltaMu + ciMargin)
  { team1Probability := jsRound (winProb * 100)
    team1Lower := jsRound (lowerWinProb * 100)
    team1Upper := jsRound (upperWinProb * 100)
    team2Probability := jsRound ((1 - winProb) * 100)
    team2Lower := jsRound ((1 - upperWinProb) * 100)
    team2Upper := jsRound ((1 - lowerWinProb) * 100) }

/-- The amended contract of `calculateWinProbabilityWithCI`: all six returned
percentages lie in `[0, 100]`, and the two teams' point estimates sum to
`100` or `101` (`101` exactly in the half-integral rounding case). -/
def ciSpec (r : CIResult) : Prop :=
  (0 ≤ r.team1Probability ∧ r.team1Probability ≤ 100) ∧
  (0 ≤ r.team1Lower ∧ r.team1Lower ≤ 100) ∧
  (0 ≤ r.team1Upper ∧ r.team1Upper ≤ 100) ∧
  (0 ≤ r.team2Probability ∧ r.team2Probability ≤ 100) ∧
  (0 ≤ r.team2Lower ∧ r.team2Lower ≤ 100) ∧
  (0 ≤ r.team2Upper ∧ r.team2Upper ≤ 100) ∧
  (r.team1Probability + r.team2Probability = 100 ∨
   r.team1Probability + r.team2Probability = 101)

/-- `team1.reduce((sum, p) => sum + getDisplayRating(p), 0)`. -/
def sumDisplayRating (team : List DBPlayer) : Int :=
  team.foldl (fun s p => s + getDisplayRating p) 0

/-- One step of the greedy distribution of `generateBalancedTeams`: the next
player joins whichever team currently has the smaller display-rating sum,
team 1 on ties. -/
def greedyStep (acc : List DBPlayer × List DBPlayer) (player : DBPlayer) :
    List DBPlayer × List DBPlayer :=
  if sumDisplayRating acc.1 ≤ sumDisplayRating acc.2 then
    (acc.1 ++ [player], acc.2)
  else
    (acc.1, acc.2 ++ [player])

/-- `MatchMakingService.generateBalancedTeams`: filter to the selected
players, return empty teams below 4, otherwise stable-sort by display rating
descending and distribute greedily. -/
def generateBalancedTeams (allPlayers : List DBPlayer) (playerIds : List String) :
    List String × List String :=
  let selectedPlayers := allPlayers.filter (fun p => playerIds.contains p.id)
  if selectedPlayers.length < 4 then ([], [])
  else
    let sorted :=
      List.insertionSort (fun a b => getDisplayRating b ≤ getDisplayRating a) selectedPlayers
    let teams := sorted.foldl greedyStep ([], [])
    (teams.1.map (·.id), teams.2.map (·.id))

/-- `team1.reduce((sum, p) => sum + p.totalGames, 0)`. -/
def sumTotalGames (team : List DBPlayer) : Int :=
  team.foldl (fun s p => s + (p.totalGames : Int)) 0

/-- One step of the greedy distribution of `generateBalancedTeamsByExperience`. -/
def greedyStepExp (acc : List DBPlayer × List DBPlayer) (player : DBPlayer) :
    List DBPlayer × List DBPlayer :=
  if sumTotalGames acc.1 ≤ sumTotalGames acc.2 then
    (acc.1 ++ [player], acc.2)
  else
    (acc.1, acc.2 ++ [player])

/-- `MatchMakingService.generateBalancedTeamsByExperience`: same greedy
structure, keyed on `totalGames`. -/
def generateBalancedTeamsByExperience (allPlayers : List DBPlayer)
    (playerIds : List String) : List String × List String :=
  let selectedPlayers := allPlayers.filter (fun p => playerIds.contains p.id)
  if selectedPlayers.length < 4 then ([], [])
  else
    let sorted :=
      List.insertionSort (fun a b => b.totalGames ≤ a.totalGames) selectedPlayers
    let teams := sorted.foldl greedyStepExp ([], [])
    (teams.1.map (·.id), teams.2.map (·.id))

/-! ## Recalculation Engine (`FirebaseStatsService.recalculatePlayerStats`) -/

/-- The shape of `openskill.rate([titanRatings, atlanteanRatings], {rank, beta, tau})`:
from the two teams' current beliefs and whether the Titans won (the source
passes ranks `[1, 2]` for a Titan win and `[2, 1]` otherwise), the two teams'
posterior beliefs.  The library function is external to this repository, so
the engine is parameterized over it; every theorem below quantifies over the
parameter and in particular holds for the library's function. -/
abbrev RateFn := List Rating → List Rating → Bool → List Rating × List Rating

/-- One entry of the `playerStatsMap` of `recalculatePlayerStats`. -/
structure PStats where
  totalGames : Nat
  wins : Nat
  losses : Nat
deriving DecidableEq, Repr

/-- The zero-initialized tally. -/
def zeroStats : PStats := ⟨0, 0, 0⟩

/-- One tally update of the match loop: `totalGames += 1` and a win or a
loss depending on whether the participant's team is the winning team. -/
def bumpStats (s : PStats) (won : Bool) : PStats :=
  { totalGames := s.totalGames + 1,
    wins := if won then s.wins + 1 else s.wins,
    losses := if won then s.losses else s.losses + 1 }

/-- The in-memory state of one recalculation run: the `playerRatings` map and
the `playerStatsMap`.  Both are embedded as total functions on ids; the
source reads `playerRatings[id]` only for initialized ids, and guards the
stats map with `if (!stats) continue`, which is kept as the explicit
membership guard in `tallyStep`. -/
structure RecalcState where
  ratings : String → Rating
  stats : String → PStats

/-- `getMatchPlayers(match.id)`: the participations belonging to one match. -/
def matchPlayersOf (mps : List DBMatchPlayer) (m : DBMatch) : List DBMatchPlayer :=
  mps.filter (fun mp => decide (mp.matchId = m.id))

/-- The participations the match loop pushes onto the Titan side. -/
def titansOf (mps : List DBMatchPlayer) (m : DBMatch) : List DBMatchPlayer :=
  (matchPlayersOf mps m).filter (fun mp => decide (mp.team = Team.Titans))

/-- The participations the match loop pushes onto the Atlantean side (the
`else` branch of the team split). -/
def atlanteansOf (mps : List DBMatchPlayer) (m : DBMatch) : List DBMatchPlayer :=
  (matchPlayersOf mps m).filter (fun mp => !decide (mp.team = Team.Titans))

/-- The `continue` guard of the match loop: a match one of whose team ratings
arrays is empty is skipped. -/
def matchSkipped (mps : List DBMatchPlayer) (m : DBMatch) : Bool :=
  (titansOf mps m).isEmpty || (atlanteansOf mps m).isEmpty

/-- One write-back of an updated belief into the `playerRatings` map. -/
def ratingWrite (f : String → Rating) (pr : String × Rating) : String → Rating :=
  Function.update f pr.1 pr.2

/-- One step of the tally loop over a match's participations, with the
source's `if (!stats) continue` guard: only ids present in the initial
players list are tallied. -/
def tallyStep (ids : List String) (winningTeam : Team) (f : String → PStats)
    (mp : DBMatchPlayer) : String → PStats :=
  if mp.playerId ∈ ids then
    Function.update f mp.playerId
      (bumpStats (f mp.playerId) (decide (mp.team = winningTeam)))
  else f

/-- One iteration of the chronological match loop of
`recalculatePlayerStats`: split the match's participations by team, skip the
match if either side is empty, otherwise rate, write the posterior beliefs
back by position, and tally every participation. -/
def processMatch (rf : RateFn) (ids : List String) (mps : List DBMatchPlayer)
    (st : RecalcState) (m : DBMatch) : RecalcState :=
  if matchSkipped mps m then st
  else
    let titanIds := (titansOf mps m).map (fun mp => mp.playerId)
    let atlanteanIds := (atlanteansOf mps m).map (fun mp => mp.playerId)
    let result := rf (titanIds.map st.ratings) (atlanteanIds.map st.ratings)
      (decide (m.winningTeam = Team.Titans))
    let ratings1 := (titanIds.zip result.1 ++ atlanteanIds.zip result.2).foldl
      ratingWrite st.ratings
    let stats1 := (matchPlayersOf mps m).foldl (tallyStep ids m.winningTeam) st.stats
    ⟨ratings1, stats1⟩

/-- `allMatches.sort((a, b) => dateA - dateB)`: a stable ascending sort by
date, embedded as stable insertion sort. -/
def sortMatches (ms : List DBMatch) : List DBMatch :=
  List.insertionSort (fun a b => a.date ≤ b.date) ms

/-- The in-memory maps after the full chronological replay, starting from
the default belief (`rating()`) and zeroed tallies for every id. -/
def finalState (rf : RateFn) (ids : List String) (ms : List DBMatch)
    (mps : List DBMatchPlayer) : RecalcState :=
  (sortMatches ms).foldl (processMatch rf ids mps)
    ⟨fun _ => defaultRating, fun _ => zeroStats⟩

/-- The per-player write-back of `recalculatePlayerStats`: final tallies and
belief, the belief's ordinal, the `elo` rescale of the ordinal, and
`lastPlayed` refreshed to `now` exactly when at least one game was counted
(kept otherwise). -/
def applyFinal (st : RecalcState) (now : Int) (p : DBPlayer) : DBPlayer :=
  { p with
    totalGames := (st.stats p.id).totalGames,
    wins := (st.stats p.id).wins,
    losses := (st.stats p.id).losses,
    mu := some (st.ratings p.id).mu,
    sigma := some (st.ratings p.id).sigma,
    ordinal := some (ordinalOf (st.ratings p.id)),
    elo := jsRound ((ordinalOf (st.ratings p.id) + 25) * 40 + 200),
    lastPlayed := if (st.stats p.id).totalGames > 0 then now else p.lastPlayed }

/-- `FirebaseStatsService.recalculatePlayerStats` as a pure transform of the
stored data: from the stored players (only their ids feed the replay), the
matches and the participations, the updated player records.  `now` stands
for the `new Date()` used to refresh `lastPlayed`. -/
def recalculatePlayerStats (rf : RateFn) (players : List DBPlayer)
    (ms : List DBMatch) (mps : List DBMatchPlayer) (now : Int) : List DBPlayer :=
  players.map (applyFinal (finalState rf (players.map (fun p => p.id)) ms mps) now)

/-- The tuple of per-player outputs named by the replay-determinism property:
`(id, mu, sigma, ordinal, elo, totalGames, wins, losses)`. -/
def ratingOutputs (p : DBPlayer) :
    String × Option ℚ × Option ℚ × Option ℚ × Int × Nat × Nat × Nat :=
  (p.id, p.mu, p.sigma, p.ordinal, p.elo, p.totalGames, p.wins, p.losses)

/-- The same output tuple read off a replay state at an id. -/
def outputsOfState (st : RecalcState) (id : String) :
    String × Option ℚ × Option ℚ × Option ℚ × Int × Nat × Nat × Nat :=
  (id, some (st.ratings id).mu, some (st.ratings id).sigma,
   some (ordinalOf (st.ratings id)),
   jsRound ((ordinalOf (st.ratings id) + 25) * 40 + 200),
   (st.stats id).totalGames, (st.stats id).wins, (st.stats id).losses)

/-- The tally invariant of one `playerStatsMap` entry. -/
def tallyOk (s : PStats) : Prop := s.wins + s.losses = s.totalGames

/-- A player id is counted in a match when the match is not skipped and the
id occurs among the match's participations. -/
def countedIn (mps : List DBMatchPlayer) (m : DBMatch) (pid : String) : Prop :=
  matchSkipped mps m = false ∧ pid ∈ (matchPlayersOf mps m).map (fun mp => mp.playerId)

/-- The per-player contract of one recalculation run stated for C9: identity
fields survive; a player counted in no match keeps the default belief and
`lastPlayed`; a player counted in at least one match gets `lastPlayed`
refreshed to `now`. -/
def playerFrame (ms : List DBMatch) (mps : List DBMatchPlayer) (now : Int)
    (p q : DBPlayer) : Prop :=
  (q.id = p.id ∧ q.name = p.name ∧ q.dateCreated = p.dateCreated)
  ∧ ((∀ m ∈ ms, ¬ countedIn mps m p.id) →
      q.mu = some defaultRating.mu ∧ q.sigma = some defaultRating.sigma ∧
      q.ordinal = some (ordinalOf defaultRating) ∧ q.lastPlayed = p.lastPlayed)
  ∧ ((∃ m ∈ ms, countedIn mps m p.id) → q.lastPlayed = now)

/-! ## Concrete records used in scenario theorems -/

/-- A stored player whose display rating is the legacy `elo` fallback
(`ordinal` undefined), with the given id and elo. -/
def eloPlayer (id : String) (elo : Int) : DBPlayer :=
  { id := id, name := id, totalGames := 0, wins := 0, losses := 0, elo := elo,
    mu := none, sigma := none, ordinal := none, lastPlayed := 0, dateCreated := 0,
    deviceId := none, level := none }

/-- A participation with only the required fields populated. -/
def bareParticipation (pid : String) (t : Team) (heroId : Int) : DBMatchPlayer :=
  { id := "", matchId := "", playerId := pid, team := t, heroId := heroId,
    heroName := "", heroRoles := [], kills := none, deaths := none, assists := none,
    goldEarned := none, minionKills := none, level := none, deviceId := none }

/-- A 3-Titans-versus-2-Atlanteans match record with otherwise valid fields. -/
def threeVTwoMatch : DBMatch :=
  { id := "m1", date := 0, winningTeam := Team.Titans, gameLength := GameLength.Quick,
    doubleLanes := false, titanPlayers := 3, atlanteanPlayers := 2, deviceId := none }

/-- The participations of the 3v2 match: distinct heroes, no statistics. -/
def threeVTwoPlayers : List DBMatchPlayer :=
  [bareParticipation "t1" Team.Titans 1, bareParticipation "t2" Team.Titans 2,
   bareParticipation "t3" Team.Titans 3, bareParticipation "a1" Team.Atlanteans 4,
   bareParticipation "a2" Team.Atlanteans 5]

/-- A 4-Titans-versus-2-Atlanteans match record with otherwise valid fields. -/
def fourVTwoMatch : DBMatch :=
  { id := "m2", date := 0, winningTeam := Team.Titans, gameLength := GameLength.Quick,
    doubleLanes := false, titanPlayers := 4, atlanteanPlayers := 2, deviceId := none }

/-- The participations of the 4v2 match: distinct heroes, no statistics. -/
def fourVTwoPlayers : List DBMatchPlayer :=
  [bareParticipation "t1" Team.Titans 1, bareParticipation "t2" Team.Titans 2,
   bareParticipation "t3" Team.Titans 3, bareParticipation "t4" Team.Titans 6,
   bareParticipation "a1" Team.Atlanteans 4, bareParticipation "a2" Team.Atlanteans 5]

/-! ## Match Lifecycle Manager (`MatchService.ts`, `FirebaseMatchService.ts`) -/

/-- The three id-keyed object stores, each embedded as a list of records
(`matchList` is the `matches` store; `matches` is a reserved word in Lean). -/
structure DB where
  players : List DBPlayer
  matchList : List DBMatch
  matchPlayers : List DBMatchPlayer
deriving DecidableEq, Repr

/-- An id-keyed `put` of a player: replace the record with the same id,
append otherwise. -/
def savePlayerL (ps : List DBPlayer) (p : DBPlayer) : List DBPlayer :=
  if ps.any (fun q => decide (q.id = p.id)) then
    ps.map (fun q => if q.id = p.id then p else q)
  else ps ++ [p]

/-- An id-keyed `put` of a match. -/
def saveMatchL (ms : List DBMatch) (m : DBMatch) : List DBMatch :=
  if ms.any (fun q => decide (q.id = m.id)) then
    ms.map (fun q => if q.id = m.id then m else q)
  else ms ++ [m]

/-- The ensure-players pass of `recordMatch`: an existing participant gets
the level ratchet applied and saved; a missing one is created with default
values, the participant's identifier serving as both id and name.  The
source issues the lookups through `Promise.all`; under the single-writer
discipline it is embedded as a sequential fold over the participants. -/
def ensurePlayers (ps : List DBPlayer) (pd : List PlayerInput) (now : Int) :
    List DBPlayer :=
  pd.foldl (fun acc pi =>
    match acc.find? (fun q => decide (q.id = pi.id)) with
    | none => savePlayerL acc (createPlayer pi.id pi.id now)
    | some ex => savePlayerL acc (applyLevelRatchet ex pi.level)) ps

/-- The `DBMatch` record `recordMatch` persists. -/
def newMatchRecord (md : MatchData) (pd : List PlayerInput) (newMatchId : String) :
    DBMatch :=
  { id := newMatchId, date := md.date, winningTeam := md.winningTeam,
    gameLength := md.gameLength, doubleLanes := md.doubleLanes,
    titanPlayers := (pd.filter (fun p => decide (p.team = Team.Titans))).length,
    atlanteanPlayers := (pd.filter (fun p => decide (p.team = Team.Atlanteans))).length,
    deviceId := none }

/-- The `DBMatchPlayer` records `recordMatch` persists; `genId` stands for
the per-row `generateUUID()`. -/
def newParticipations (pd : List PlayerInput) (newMatchId : String)
    (genId : Nat → String) : List DBMatchPlayer :=
  pd.enum.map (fun ip =>
    { id := genId ip.1, matchId := newMatchId, playerId := ip.2.id, team := ip.2.team,
      heroId := ip.2.heroId, heroName := ip.2.heroName, heroRoles := ip.2.heroRoles,
      kills := ip.2.kills, deaths := ip.2.deaths, assists := ip.2.assists,
      goldEarned := ip.2.goldEarned, minionKills := ip.2.minionKills,
      level := ip.2.level, deviceId := none })

/-- `MatchService.recordMatch` (`FirebaseMatchService.recordMatch` is
identical) as a pure transition: validate and fail fast, ensure all
referenced players exist, persist the match and its participations, then
run the full recalculation.  `newMatchId` stands for the match's
`generateUUID()` and `now`/`oneYearAgo` for the wall clock. -/
def recordMatch (rf : RateFn) (db : DB) (md : MatchData) (pd : List PlayerInput)
    (newMatchId : String) (genId : Nat → String) (now oneYearAgo : Int) :
    Except String DB :=
  if (validateNewMatch md pd now oneYearAgo).isValid = false then
    Except.error "Match validation failed"
  else
    Except.ok
      ⟨recalculatePlayerStats rf (ensurePlayers db.players pd now)
          (saveMatchL db.matchList (newMatchRecord md pd newMatchId))
          (db.matchPlayers ++ newParticipations pd newMatchId genId) now,
        saveMatchL db.matchList (newMatchRecord md pd newMatchId),
        db.matchPlayers ++ newParticipations pd newMatchId genId⟩

/-- The participation deletion of `deleteMatch`: `getMatchPlayers(matchId)`
determines the row ids, each of which is deleted from the store. -/
def deleteParts (mps : List DBMatchPlayer) (matchId : String) : List DBMatchPlayer :=
  mps.filter (fun mp =>
    decide (mp.id ∉ (mps.filter (fun mp2 => decide (mp2.matchId = matchId))).map
      (fun mp2 => mp2.id)))

/-- `MatchService.deleteMatch`: fail when the match is absent, otherwise
delete its participations and the match itself, then run the full
recalculation. -/
def deleteMatch (rf : RateFn) (db : DB) (matchId : String) (now : Int) :
    Except String DB :=
  match db.matchList.find? (fun m => decide (m.id = matchId)) with
  | none => Except.error "Match not found"
  | some _ =>
    Except.ok
      ⟨recalculatePlayerStats rf db.players
          (db.matchList.filter (fun m => decide (¬ m.id = matchId)))
          (deleteParts db.matchPlayers matchId) now,
        db.matchList.filter (fun m => decide (¬ m.id = matchId)),
        deleteParts db.matchPlayers matchId⟩

/-- The pre-match default rating state of a player: exactly the
rating-relevant fields `createPlayer` assigns. -/
def atDefaults (p : DBPlayer) : Prop :=
  p.mu = some defaultRating.mu ∧ p.sigma = some defaultRating.sigma ∧
  p.ordinal = some (ordinalOf defaultRating) ∧ p.elo = INITIAL_ELO ∧
  p.totalGames = 0 ∧ p.wins = 0 ∧ p.losses = 0

/-- A rating function that keeps every belief unchanged, used to instantiate
the lifecycle theorems on concrete data. -/
def rfId : RateFn := fun a b _ => (a, b)

/-- Concrete match data for the record/delete round-trip instance. -/
def wMatchData : MatchData := ⟨0, Team.Titans, GameLength.Quick, false⟩

/-- Concrete 2v2 participants for the record/delete round-trip instance. -/
def wPlayerData : List PlayerInput :=
  [⟨"a", Team.Titans, 1, "h1", [], none, none, none, none, none, none⟩,
   ⟨"b", Team.Titans, 2, "h2", [], none, none, none, none, none, none⟩,
   ⟨"c", Team.Atlanteans, 3, "h3", [], none, none, none, none, none, none⟩,
   ⟨"d", Team.Atlanteans, 4, "h4", [], none, none, none, none, none, none⟩]

/-- The stored state after recording the concrete 2v2 match on an empty
database. -/
def wS1 : DB :=
  match recordMatch rfId ⟨[], [], []⟩ wMatchData wPlayerData "m" (fun _ => "p") 0 (-1) with
  | Except.ok s => s
  | Except.error _ => ⟨[], [], []⟩

/-- The stored state after then deleting that match. -/
def wS2 : DB :=
  match deleteMatch rfId wS1 "m" 0 with
  | Except.ok s => s
  | Except.error _ => ⟨[], [], []⟩

/-! ## Theorems -/

/-- The greedy distribution of `generateBalancedTeams` only moves players
between the two accumulating teams and the remaining input: the two final
teams together are a permutation of the accumulated teams plus the input. -/
theorem greedyStep_append_perm (l : List DBPlayer) :
    ∀ acc : List DBPlayer × List DBPlayer,
      ((l.foldl greedyStep acc).1 ++ (l.foldl greedyStep acc).2).Perm
        (acc.1 ++ acc.2 ++ l) := by
  induction l with
  | nil => intro acc; simp
  | cons x l ih =>
    intro acc
    refine (ih (greedyStep acc x)).trans ?_
    unfold greedyStep
    by_cases hc : sumDisplayRating acc.1 ≤ sumDisplayRating acc.2
    · simp only [if_pos hc]
      simp only [List.append_assoc, List.singleton_append, List.cons_append,
        List.nil_append]
      exact List.Perm.append_left acc.1 List.perm_middle.symm
    · simp only [if_neg hc]
      simp [List.append_assoc]

/-- C10: team balancing by skill partitions the selected players: with at
least 4 resolvable selected players the two returned teams together are a
permutation of the selected players' ids (each selected player on exactly one
team, nobody twice, nobody unselected); with fewer than 4 the result is two
empty teams. -/
theorem generateBalancedTeams_partitions (allPlayers : List DBPlayer)
    (playerIds : List String) :
    (4 ≤ (allPlayers.filter (fun p => playerIds.contains p.id)).length →
      ((generateBalancedTeams allPlayers playerIds).1 ++
        (generateBalancedTeams allPlayers playerIds).2).Perm
        ((allPlayers.filter (fun p => playerIds.contains p.id)).map (fun p => p.id)))
    ∧ ((allPlayers.filter (fun p => playerIds.contains p.id)).length < 4 →
        generateBalancedTeams allPlayers playerIds = ([], [])) := by
  constructor
  · intro h4
    have hnot : ¬ ((allPlayers.filter (fun p => playerIds.contains p.id)).length < 4) := by
      omega
    unfold generateBalancedTeams
    simp only [if_neg hnot]
    rw [← List.map_append]
    have h1 := greedyStep_append_perm
      (List.insertionSort (fun a b => getDisplayRating b ≤ getDisplayRating a)
        (allPlayers.filter (fun p => playerIds.contains p.id))) ([], [])
    simp only [List.nil_append] at h1
    exact (h1.map (fun p => p.id)).trans
      ((List.perm_insertionSort _ _).map (fun p : DBPlayer => p.id))
  · intro h4
    unfold generateBalancedTeams
    simp only [if_pos h4]

/-- C4: on four players whose display ratings are [2000, 1800, 1600, 1400],
`generateBalancedTeams` sorts them descending and greedily assigns each to
the team with the smaller running display-rating sum (ties to team 1),
producing teams {2000, 1400} versus {1800, 1600}. -/
theorem balanceBySkill_scenario :
    generateBalancedTeams
      [eloPlayer "a" 2000, eloPlayer "b" 1800, eloPlayer "c" 1600, eloPlayer "d" 1400]
      ["a", "b", "c", "d"] = (["a", "d"], ["b", "c"]) := by
  decide

/-- C5 counterexample: a match with 3 Titans versus 2 Atlanteans (difference
of exactly one) validates with `isValid = true` and NO warnings at all — the
size-imbalance warning fires only for a difference strictly greater than 1,
so the claimed "exactly one warning" is false. -/
theorem validate_3v2_no_warning :
    (validateMatchEdit threeVTwoMatch threeVTwoPlayers 0 (-1000)).isValid = true ∧
    (validateMatchEdit threeVTwoMatch threeVTwoPlayers 0 (-1000)).warnings = [] := by
  decide

/-- C5 (amended): a team-size difference strictly greater than 1 — here
4 Titans versus 2 Atlanteans — validates with `isValid = true` and exactly
one warning, about team-size imbalance. -/
theorem validate_4v2_one_size_warning :
    (validateMatchEdit fourVTwoMatch fourVTwoPlayers 0 (-1000)).isValid = true ∧
    (validateMatchEdit fourVTwoMatch fourVTwoPlayers 0 (-1000)).warnings =
      [⟨"teams", none, VMessage.teamSizeUnbalanced 4 2, Severity.warning⟩] := by
  decide

/-- Recalculation output ids coincide positionally with input ids. -/
theorem recalc_map_id (rf : RateFn) (ps : List DBPlayer) (ms : List DBMatch)
    (mps : List DBMatchPlayer) (now : Int) :
    (recalculatePlayerStats rf ps ms mps now).map (fun p => p.id)
      = ps.map (fun p => p.id) := by
  unfold recalculatePlayerStats
  rw [List.map_map]
  rfl

/-- The per-player outputs of a recalculation run depend on the stored
players only through their ids. -/
theorem recalc_outputs (rf : RateFn) (ps : List DBPlayer) (ms : List DBMatch)
    (mps : List DBMatchPlayer) (now : Int) :
    (recalculatePlayerStats rf ps ms mps now).map ratingOutputs
      = (ps.map (fun p => p.id)).map
          (outputsOfState (finalState rf (ps.map (fun p => p.id)) ms mps)) := by
  unfold recalculatePlayerStats
  rw [List.map_map, List.map_map]
  rfl

/-- C1: replay determinism.  Running the full recalculation twice in a row
with no intervening writes (the second run reads the players the first one
persisted, and the same matches and participations) produces identical
`(id, mu, sigma, ordinal, elo, totalGames, wins, losses)` for every player,
for every rating function. -/
theorem recalculateAll_replay_deterministic (rf : RateFn) (ps : List DBPlayer)
    (ms : List DBMatch) (mps : List DBMatchPlayer) (now1 now2 : Int) :
    (recalculatePlayerStats rf (recalculatePlayerStats rf ps ms mps now1) ms mps now2).map
        ratingOutputs
      = (recalculatePlayerStats rf ps ms mps now1).map ratingOutputs := by
  rw [recalc_outputs, recalc_outputs, recalc_map_id]

/-- A tally update preserves the tally invariant. -/
theorem bumpStats_tally (s : PStats) (w : Bool) (h : tallyOk s) :
    tallyOk (bumpStats s w) := by
  cases w <;> simp [bumpStats, tallyOk] at h ⊢ <;> omega

/-- One tally step preserves the pointwise tally invariant. -/
theorem tallyStep_tally (ids : List String) (wt : Team) (f : String → PStats)
    (mp : DBMatchPlayer) (h : ∀ id, tallyOk (f id)) :
    ∀ id, tallyOk ((tallyStep ids wt f mp) id) := by
  intro id
  unfold tallyStep
  split
  · rw [Function.update_apply]
    split
    · exact bumpStats_tally _ _ (h _)
    · exact h id
  · exact h id

/-- The tally loop over one match preserves the pointwise tally invariant. -/
theorem foldl_tallyStep_tally (ids : List String) (wt : Team)
    (l : List DBMatchPlayer) :
    ∀ f : String → PStats, (∀ id, tallyOk (f id)) →
      ∀ id, tallyOk ((l.foldl (tallyStep ids wt) f) id) := by
  induction l with
  | nil => intro f h; exact h
  | cons mp l ih => intro f h; exact ih _ (tallyStep_tally ids wt f mp h)

/-- Processing one match preserves the pointwise tally invariant. -/
theorem processMatch_tally (rf : RateFn) (ids : List String)
    (mps : List DBMatchPlayer) (st : RecalcState) (m : DBMatch)
    (h : ∀ id, tallyOk (st.stats id)) :
    ∀ id, tallyOk ((processMatch rf ids mps st m).stats id) := by
  unfold processMatch
  split
  · exact h
  · exact foldl_tallyStep_tally ids m.winningTeam (matchPlayersOf mps m) st.stats h

/-- The whole chronological replay preserves the pointwise tally invariant. -/
theorem foldl_process_tally (rf : RateFn) (ids : List String)
    (mps : List DBMatchPlayer) (l : List DBMatch) :
    ∀ st : RecalcState, (∀ id, tallyOk (st.stats id)) →
      ∀ id, tallyOk ((l.foldl (processMatch rf ids mps) st).stats id) := by
  induction l with
  | nil => intro st h; exact h
  | cons m l ih => intro st h; exact ih _ (processMatch_tally rf ids mps st m h)

/-- The final replay state satisfies the tally invariant at every id. -/
theorem finalState_tally (rf : RateFn) (ids : List String) (ms : List DBMatch)
    (mps : List DBMatchPlayer) :
    ∀ id, tallyOk ((finalState rf ids ms mps).stats id) := by
  unfold finalState
  exact foldl_process_tally rf ids mps (sortMatches ms) _ (fun _ => rfl)

/-- C2: after any recalculation run, `wins + losses = totalGames` holds on
every persisted player record, for every rating function. -/
theorem recalculate_tally_invariant (rf : RateFn) (ps : List DBPlayer)
    (ms : List DBMatch) (mps : List DBMatchPlayer) (now : Int) :
    List.Forall (fun p => p.wins + p.losses = p.totalGames)
      (recalculatePlayerStats rf ps ms mps now) := by
  rw [List.forall_iff_forall_mem]
  intro q hq
  unfold recalculatePlayerStats at hq
  obtain ⟨p, hp, rfl⟩ := List.mem_map.mp hq
  have h := finalState_tally rf (ps.map (fun p => p.id)) ms mps p.id
  simpa [applyFinal, tallyOk] using h

/-- Membership in the sorted match list is membership in the match list. -/
theorem mem_sortMatches {m : DBMatch} {ms : List DBMatch} :
    m ∈ sortMatches ms ↔ m ∈ ms := by
  unfold sortMatches
  exact List.mem_insertionSort _

/-- Rating write-backs at other keys leave an id's belief unchanged. -/
theorem foldl_ratingWrite_not_mem (prs : List (String × Rating)) :
    ∀ (f : String → Rating) (pid : String), pid ∉ prs.map Prod.fst →
      (prs.foldl ratingWrite f) pid = f pid := by
  induction prs with
  | nil => intro f pid _; rfl
  | cons pr prs ih =>
    intro f pid h
    simp only [List.map_cons, List.mem_cons] at h
    push_neg at h
    rw [List.foldl_cons, ih _ pid h.2]
    unfold ratingWrite
    exact Function.update_noteq h.1 _ _

/-- Tally steps at other ids leave an id's tally unchanged. -/
theorem foldl_tallyStep_not_mem (ids : List String) (wt : Team)
    (l : List DBMatchPlayer) :
    ∀ (f : String → PStats) (pid : String),
      pid ∉ l.map (fun mp => mp.playerId) →
      (l.foldl (tallyStep ids wt) f) pid = f pid := by
  induction l with
  | nil => intro f pid _; rfl
  | cons mp l ih =>
    intro f pid h
    simp only [List.map_cons, List.mem_cons] at h
    push_neg at h
    rw [List.foldl_cons, ih _ pid h.2]
    unfold tallyStep
    split
    · exact Function.update_noteq h.1 _ _
    · rfl

/-- A match in which an id is not counted changes neither its belief nor its
tally. -/
theorem processMatch_not_counted (rf : RateFn) (ids : List String)
    (mps : List DBMatchPlayer) (st : RecalcState) (m : DBMatch) (pid : String)
    (h : ¬ countedIn mps m pid) :
    (processMatch rf ids mps st m).ratings pid = st.ratings pid
    ∧ (processMatch rf ids mps st m).stats pid = st.stats pid := by
  unfold processMatch
  by_cases hs : matchSkipped mps m
  · simp [hs]
  · have hb : matchSkipped mps m = false := by simpa using hs
    have hmem : pid ∉ (matchPlayersOf mps m).map (fun mp => mp.playerId) := by
      intro hm
      exact h ⟨hb, hm⟩
    simp only [hb, Bool.false_eq_true, if_false]
    constructor
    · refine foldl_ratingWrite_not_mem _ _ _ ?_
      intro hzmem
      rcases List.mem_map.mp hzmem with ⟨pr, hpr, hpe⟩
      rcases List.mem_append.mp hpr with hpr | hpr
      · rcases List.of_mem_zip hpr with ⟨h1, _⟩
        rcases List.mem_map.mp h1 with ⟨mp, hmp, hpe2⟩
        exact hmem (List.mem_map.mpr ⟨mp, List.mem_of_mem_filter hmp, hpe2.trans hpe⟩)
      · rcases List.of_mem_zip hpr with ⟨h1, _⟩
        rcases List.mem_map.mp h1 with ⟨mp, hmp, hpe2⟩
        exact hmem (List.mem_map.mpr ⟨mp, List.mem_of_mem_filter hmp, hpe2.trans hpe⟩)
    · exact foldl_tallyStep_not_mem _ _ _ _ _ hmem

/-- A replay over matches in which an id is never counted leaves its belief
and tally at their initial values. -/
theorem foldl_process_not_counted (rf : RateFn) (ids : List String)
    (mps : List DBMatchPlayer) (l : List DBMatch) :
    ∀ (st : RecalcState) (pid : String), (∀ m ∈ l, ¬ countedIn mps m pid) →
      (l.foldl (processMatch rf ids mps) st).ratings pid = st.ratings pid
      ∧ (l.foldl (processMatch rf ids mps) st).stats pid = st.stats pid := by
  induction l with
  | nil => intro st pid _; exact ⟨rfl, rfl⟩
  | cons m l ih =>
    intro st pid h
    have h1 := processMatch_not_counted rf ids mps st m pid (h m (List.mem_cons_self m l))
    have h2 := ih (processMatch rf ids mps st m) pid
      (fun m' hm' => h m' (List.mem_cons_of_mem _ hm'))
    rw [List.foldl_cons]
    exact ⟨h2.1.trans h1.1, h2.2.trans h1.2⟩

/-- One tally step never decreases an id's game count. -/
theorem tallyStep_totalGames_le (ids : List String) (wt : Team)
    (f : String → PStats) (mp : DBMatchPlayer) (pid : String) :
    (f pid).totalGames ≤ ((tallyStep ids wt f mp) pid).totalGames := by
  unfold tallyStep
  split
  · rw [Function.update_apply]
    by_cases he : pid = mp.playerId
    · rw [if_pos he, he]
      simp only [bumpStats]
      omega
    · rw [if_neg he]
  · exact le_refl _

/-- The tally loop never decreases an id's game count. -/
theorem foldl_tallyStep_totalGames_le (ids : List String) (wt : Team)
    (l : List DBMatchPlayer) :
    ∀ (f : String → PStats) (pid : String),
      (f pid).totalGames ≤ ((l.foldl (tallyStep ids wt) f) pid).totalGames := by
  induction l with
  | nil => intro f pid; exact le_refl _
  | cons mp l ih =>
    intro f pid
    exact le_trans (tallyStep_totalGames_le ids wt f mp pid) (ih _ pid)

/-- The tally loop strictly increases the game count of a tallied, stored
participant. -/
theorem foldl_tallyStep_totalGames_lt (ids : List String) (wt : Team)
    (l : List DBMatchPlayer) :
    ∀ (f : String → PStats) (pid : String), pid ∈ ids →
      (∃ mp ∈ l, mp.playerId = pid) →
      (f pid).totalGames < ((l.foldl (tallyStep ids wt) f) pid).totalGames := by
  induction l with
  | nil =>
    intro f pid _ h
    rcases h with ⟨mp, hm, _⟩
    cases hm
  | cons mp l ih =>
    intro f pid hid h
    rcases h with ⟨mp', hm', he⟩
    rcases List.mem_cons.mp hm' with rfl | hm'
    · have hstep : (f pid).totalGames < ((tallyStep ids wt f mp') pid).totalGames := by
        unfold tallyStep
        rw [he, if_pos hid, Function.update_same]
        simp only [bumpStats]
        omega
      exact lt_of_lt_of_le hstep (foldl_tallyStep_totalGames_le ids wt l _ pid)
    · exact lt_of_le_of_lt (tallyStep_totalGames_le ids wt f mp pid)
        (ih _ pid hid ⟨mp', hm', he⟩)

/-- Processing one match never decreases an id's game count. -/
theorem processMatch_totalGames_le (rf : RateFn) (ids : List String)
    (mps : List DBMatchPlayer) (st : RecalcState) (m : DBMatch) (pid : String) :
    (st.stats pid).totalGames ≤ ((processMatch rf ids mps st m).stats pid).totalGames := by
  unfold processMatch
  split
  · exact le_refl _
  · exact foldl_tallyStep_totalGames_le _ _ _ _ _

/-- The replay never decreases an id's game count. -/
theorem foldl_process_totalGames_le (rf : RateFn) (ids : List String)
    (mps : List DBMatchPlayer) (l : List DBMatch) :
    ∀ (st : RecalcState) (pid : String),
      (st.stats pid).totalGames ≤ ((l.foldl (processMatch rf ids mps) st).stats pid).totalGames := by
  induction l with
  | nil => intro st pid; exact le_refl _
  | cons m l ih =>
    intro st pid
    exact le_trans (processMatch_totalGames_le rf ids mps st m pid) (ih _ pid)

/-- Processing a match that counts a stored id strictly increases its game
count. -/
theorem processMatch_counted_lt (rf : RateFn) (ids : List String)
    (mps : List DBMatchPlayer) (st : RecalcState) (m : DBMatch) (pid : String)
    (hid : pid ∈ ids) (hc : countedIn mps m pid) :
    (st.stats pid).totalGames < ((processMatch rf ids mps st m).stats pid).totalGames := by
  unfold processMatch
  rcases hc with ⟨hb, hmem⟩
  simp only [hb, Bool.false_eq_true, if_false]
  rcases List.mem_map.mp hmem with ⟨mp, hmp, he⟩
  exact foldl_tallyStep_totalGames_lt ids m.winningTeam (matchPlayersOf mps m)
    st.stats pid hid ⟨mp, hmp, he⟩

/-- A replay over matches at least one of which counts a stored id strictly
increases its game count. -/
theorem foldl_process_counted_lt (rf : RateFn) (ids : List String)
    (mps : List DBMatchPlayer) (l : List DBMatch) :
    ∀ (st : RecalcState) (pid : String), pid ∈ ids →
      (∃ m ∈ l, countedIn mps m pid) →
      (st.stats pid).totalGames < ((l.foldl (processMatch rf ids mps) st).stats pid).totalGames := by
  induction l with
  | nil =>
    intro st pid _ h
    rcases h with ⟨m, hm, _⟩
    cases hm
  | cons m l ih =>
    intro st pid hid h
    rcases h with ⟨m', hm', hc⟩
    rcases List.mem_cons.mp hm' with rfl | hm'
    · exact lt_of_lt_of_le (processMatch_counted_lt rf ids mps st m' pid hid hc)
        (foldl_process_totalGames_le rf ids mps l _ pid)
    · exact lt_of_le_of_lt (processMatch_totalGames_le rf ids mps st m pid)
        (ih _ pid hid ⟨m', hm', hc⟩)

/-- C9: frame of one recalculation run, positionally for every stored player:
identity fields (`id`, `name`, `dateCreated`) are unchanged; a player counted
in zero non-skipped matches is persisted with the default belief, the ordinal
derived from it, and `lastPlayed` unchanged; a player with at least one
counted game gets `lastPlayed` refreshed to `now`. -/
theorem recalculate_frame (rf : RateFn) (ps : List DBPlayer) (ms : List DBMatch)
    (mps : List DBMatchPlayer) (now : Int) :
    List.Forall₂ (playerFrame ms mps now) ps (recalculatePlayerStats rf ps ms mps now) := by
  unfold recalculatePlayerStats
  rw [List.forall₂_map_right_iff, List.forall₂_same]
  intro p hp
  unfold playerFrame
  refine ⟨⟨rfl, rfl, rfl⟩, ?_, ?_⟩
  · intro hnone
    have hcond : ∀ m ∈ sortMatches ms, ¬ countedIn mps m p.id := fun m hm =>
      hnone m (mem_sortMatches.mp hm)
    have h := foldl_process_not_counted rf (ps.map (fun p => p.id)) mps (sortMatches ms)
      ⟨fun _ => defaultRating, fun _ => zeroStats⟩ p.id hcond
    have hr : (finalState rf (ps.map (fun p => p.id)) ms mps).ratings p.id = defaultRating :=
      h.1
    have hs : (finalState rf (ps.map (fun p => p.id)) ms mps).stats p.id = zeroStats :=
      h.2
    refine ⟨by simp [applyFinal, hr], by simp [applyFinal, hr], by simp [applyFinal, hr],
      by simp [applyFinal, hs, zeroStats]⟩
  · intro hcnt
    rcases hcnt with ⟨m, hm, hc⟩
    have hpos := foldl_process_counted_lt rf (ps.map (fun p => p.id)) mps (sortMatches ms)
      ⟨fun _ => defaultRating, fun _ => zeroStats⟩ p.id
      (List.mem_map_of_mem _ hp) ⟨m, mem_sortMatches.mpr hm, hc⟩
    have hpos2 : 0 < ((finalState rf (ps.map (fun p => p.id)) ms mps).stats p.id).totalGames :=
      hpos
    simp [applyFinal, hpos2]

/-- C8: recording a match updates an existing participant's stored `level`
exactly when the incoming level is defined and the stored level is undefined
or strictly smaller; when it updates it takes the incoming value, and a
defined stored level never decreases (monotonic ratchet). -/
theorem level_ratchet (p : DBPlayer) (incoming : Option Int) :
    ((applyLevelRatchet p incoming).level ≠ p.level ↔
      ∃ l, incoming = some l ∧ (p.level = none ∨ ∃ l0, p.level = some l0 ∧ l0 < l))
    ∧ ((applyLevelRatchet p incoming).level ≠ p.level →
        (applyLevelRatchet p incoming).level = incoming)
    ∧ (∀ l0 l1, p.level = some l0 → (applyLevelRatchet p incoming).level = some l1 →
        l0 ≤ l1) := by
  refine ⟨?_, ?_, ?_⟩
  · cases incoming with
    | none => simp [applyLevelRatchet]
    | some l =>
      cases hp : p.level with
      | none => simp [applyLevelRatchet, hp]
      | some l0 =>
        by_cases h : l0 < l
        · simp only [applyLevelRatchet, hp, if_pos h]
          simp [hp]
          omega
        · simp only [applyLevelRatchet, hp, if_neg h]
          simp [hp]
          omega
  · cases incoming with
    | none => simp [applyLevelRatchet]
    | some l =>
      cases hp : p.level with
      | none => simp [applyLevelRatchet, hp]
      | some l0 =>
        by_cases h : l0 < l
        · simp [applyLevelRatchet, hp, if_pos h]
        · simp [applyLevelRatchet, hp, if_neg h]
  · intro l0 l1 hp hr
    cases incoming with
    | none =>
      simp only [applyLevelRatchet] at hr
      rw [hp] at hr
      exact le_of_eq (Option.some.inj hr)
    | some l =>
      simp only [applyLevelRatchet, hp] at hr
      by_cases h : l0 < l
      · rw [if_pos h] at hr
        have h1 : l = l1 := by simpa using hr
        omega
      · rw [if_neg h] at hr
        rw [hp] at hr
        have h1 : l0 = l1 := by simpa using hr
        omega

/-- `find?` skips a prefix in which nothing matches. -/
theorem find?_append_none {α : Type} (p : α → Bool) (l1 l2 : List α)
    (h : l1.find? p = none) : (l1 ++ l2).find? p = l2.find? p := by
  induction l1 with
  | nil => rfl
  | cons a l1 ih =>
    rw [List.find?_cons] at h
    cases hpa : p a with
    | true => rw [hpa] at h; cases h
    | false =>
      rw [hpa] at h
      rw [List.cons_append, List.find?_cons, hpa]
      exact ih h

/-- `find?` on a key commutes with a map that preserves keys. -/
theorem find?_map_fst_preserving (p : Int → Bool)
    (g : Int × List String → Int × List String) (hg : ∀ e, (g e).1 = e.1) :
    ∀ l : List (Int × List String),
      (l.map g).find? (fun e => p e.1) = (l.find? (fun e => p e.1)).map g := by
  intro l
  induction l with
  | nil => rfl
  | cons a l ih =>
    rw [List.map_cons, List.find?_cons, List.find?_cons, hg]
    cases hpa : p a.1 with
    | true => rfl
    | false => exact ih

/-- The value the built `heroUsage` map holds at a key, as a function of the
association list the fold starts from: the players pushed for that hero are
appended in participation order. -/
theorem huLookup_foldl (h : Int) :
    ∀ (l : List DBMatchPlayer) (acc : List (Int × List String)),
      huLookup (l.foldl huStep acc) h =
        match huLookup acc h with
        | some v => some (v ++ heroPlayers l h)
        | none =>
          if (heroPlayers l h).isEmpty then none else some (heroPlayers l h) := by
  intro l
  induction l with
  | nil =>
    intro acc
    cases hv : huLookup acc h <;> simp [heroPlayers, hv]
  | cons mp l ih =>
    intro acc
    rw [List.foldl_cons]
    rw [ih (huStep acc mp)]
    by_cases hEq : mp.heroId = h
    · have hhp : heroPlayers (mp :: l) h = mp.playerId :: heroPlayers l h := by
        simp [heroPlayers, List.filter_cons, hEq]
      cases hv : huLookup acc h with
      | some v =>
        rcases Option.map_eq_some'.mp hv with ⟨e0, hfind, he2⟩
        have he1 : e0.1 = h := by simpa using List.find?_some hfind
        have hany : acc.any (fun e => decide (e.1 = mp.heroId)) = true := by
          refine List.any_eq_true.mpr ⟨e0, List.mem_of_find?_eq_some hfind, ?_⟩
          simp [he1, hEq]
        have hstep : huLookup (huStep acc mp) h = some (v ++ [mp.playerId]) := by
          unfold huStep
          rw [if_pos hany]
          unfold huLookup
          rw [find?_map_fst_preserving (fun k => decide (k = h))
            (fun e => if e.1 = mp.heroId then (e.1, e.2 ++ [mp.playerId]) else e)
            (fun e => by by_cases hc : e.1 = mp.heroId <;> simp [hc])]
          rw [hfind]
          simp only [Option.map_some']
          rw [if_pos (he1.trans hEq.symm)]
          rw [he2]
        rw [hstep, hhp]
        simp
      | none =>
        have hnone : acc.find? (fun e => decide (e.1 = h)) = none := by
          unfold huLookup at hv
          exact Option.map_eq_none'.mp hv
        have hany : acc.any (fun e => decide (e.1 = mp.heroId)) = false := by
          rw [List.any_eq_false]
          intro e he
          have := List.find?_eq_none.mp hnone e he
          simp only [decide_eq_true_eq] at this ⊢
          rw [hEq]
          exact this
        have hstep : huLookup (huStep acc mp) h = some [mp.playerId] := by
          unfold huStep
          rw [if_neg (by simp [hany])]
          unfold huLookup
          rw [find?_append_none _ _ _ hnone]
          rw [List.find?_cons_of_pos _ (by simp [hEq])]
          rfl
        rw [hstep, hhp]
        simp
    · have hhp : heroPlayers (mp :: l) h = heroPlayers l h := by
        simp [heroPlayers, List.filter_cons, hEq]
      have hstep : huLookup (huStep acc mp) h = huLookup acc h := by
        unfold huStep
        split
        · unfold huLookup
          rw [find?_map_fst_preserving (fun k => decide (k = h))
            (fun e => if e.1 = mp.heroId then (e.1, e.2 ++ [mp.playerId]) else e)
            (fun e => by by_cases hc : e.1 = mp.heroId <;> simp [hc])]
          cases hfind : acc.find? (fun e => decide (e.1 = h)) with
          | none => rfl
          | some e0 =>
            have he1 : e0.1 = h := by simpa using List.find?_some hfind
            simp only [Option.map_some']
            rw [if_neg (by rw [he1]; exact fun hc => hEq hc.symm)]
        · unfold huLookup
          cases hfind : acc.find? (fun e => decide (e.1 = h)) with
          | none =>
            rw [find?_append_none _ _ _ hfind]
            rw [List.find?_cons_of_neg _ (by simp [hEq])]
            rfl
          | some e0 =>
            have : (acc ++ [(mp.heroId, [mp.playerId])]).find?
                (fun e => decide (e.1 = h)) = some e0 := by
              rw [List.find?_append, hfind]
              rfl
            rw [this]
      rw [hstep, hhp]

/-- The `heroUsage` map holds, at every present hero, exactly the players
assigned that hero, in order. -/
theorem heroUsage_lookup (ps : List DBMatchPlayer) (h : Int) :
    huLookup (heroUsage ps) h =
      if (heroPlayers ps h).isEmpty then none else some (heroPlayers ps h) := by
  have := huLookup_foldl h ps []
  unfold heroUsage
  rw [this]
  rfl

/-- One `heroUsage` step keeps the keys without duplicates. -/
theorem huStep_keys_nodup (acc : List (Int × List String)) (mp : DBMatchPlayer)
    (h : (acc.map (fun e => e.1)).Nodup) :
    ((huStep acc mp).map (fun e => e.1)).Nodup := by
  unfold huStep
  split
  · rw [List.map_map]
    have heq : ((fun e : Int × List String => e.1) ∘
        fun e => if e.1 = mp.heroId then (e.1, e.2 ++ [mp.playerId]) else e) =
        fun e : Int × List String => e.1 := by
      funext e
      by_cases hc : e.1 = mp.heroId <;> simp [Function.comp, hc]
    rw [heq]
    exact h
  · rename_i hany
    rw [List.map_append]
    refine List.Nodup.append h (List.nodup_singleton _) ?_
    intro a ha hb
    simp only [List.map_cons, List.map_nil, List.mem_singleton] at hb
    subst hb
    rcases List.mem_map.mp ha with ⟨e, he, he1⟩
    have : acc.any (fun e => decide (e.1 = mp.heroId)) = true :=
      List.any_eq_true.mpr ⟨e, he, by simp [he1]⟩
    exact hany this

/-- The built `heroUsage` map has no duplicate keys. -/
theorem heroUsage_keys_nodup (ps : List DBMatchPlayer) :
    ((heroUsage ps).map (fun e => e.1)).Nodup := by
  unfold heroUsage
  have : ∀ (l : List DBMatchPlayer) (acc : List (Int × List String)),
      (acc.map (fun e => e.1)).Nodup → ((l.foldl huStep acc).map (fun e => e.1)).Nodup := by
    intro l
    induction l with
    | nil => intro acc h; exact h
    | cons mp l ih => intro acc h; exact ih _ (huStep_keys_nodup acc mp h)
  exact this ps [] List.nodup_nil

/-- In a key-nodup association list, `find?` by a member's key returns it. -/
theorem find?_eq_of_keys_nodup (l : List (Int × List String))
    (e : Int × List String) (hnd : (l.map (fun e => e.1)).Nodup) (he : e ∈ l) :
    l.find? (fun x => decide (x.1 = e.1)) = some e := by
  induction l with
  | nil => cases he
  | cons a l ih =>
    rw [List.map_cons, List.nodup_cons] at hnd
    rcases List.mem_cons.mp he with rfl | he'
    · exact List.find?_cons_of_pos _ (by simp)
    · have hne : ¬ (a.1 = e.1) := by
        intro hc
        exact hnd.1 (hc ▸ List.mem_map.mpr ⟨e, he', rfl⟩)
      rw [List.find?_cons_of_neg _ (by simpa using hne)]
      exact ih hnd.2 he'

/-- Every entry of the built `heroUsage` map holds exactly the players of
its hero. -/
theorem heroUsage_entry (ps : List DBMatchPlayer) (e : Int × List String)
    (he : e ∈ heroUsage ps) : e.2 = heroPlayers ps e.1 := by
  have h1 := find?_eq_of_keys_nodup (heroUsage ps) e (heroUsage_keys_nodup ps) he
  have h2 := heroUsage_lookup ps e.1
  unfold huLookup at h2
  rw [h1] at h2
  by_cases hE : (heroPlayers ps e.1).isEmpty
  · rw [if_pos hE] at h2
    cases h2
  · rw [if_neg hE] at h2
    exact Option.some.inj h2

/-- With pairwise-distinct hero ids, at most one player holds each hero. -/
theorem heroPlayers_length_le_one (ps : List DBMatchPlayer)
    (hnd : (ps.map (fun mp => mp.heroId)).Nodup) (h : Int) :
    (heroPlayers ps h).length ≤ 1 := by
  induction ps with
  | nil => simp [heroPlayers]
  | cons mp l ih =>
    rw [List.map_cons, List.nodup_cons] at hnd
    by_cases he : mp.heroId = h
    · have htl : l.filter (fun mp => decide (mp.heroId = h)) = [] := by
        rw [List.filter_eq_nil_iff]
        intro mp' hmp' hp
        apply hnd.1
        have : mp'.heroId = h := by simpa using hp
        rw [he, ← this]
        exact List.mem_map.mpr ⟨mp', hmp', rfl⟩
      simp [heroPlayers, List.filter_cons, he, htl]
    · have := ih hnd.2
      simpa [heroPlayers, List.filter_cons, he] using this

/-- With pairwise-distinct hero ids, no hero-duplication error is emitted. -/
theorem heroErrors_eq_nil_of_nodup (ps : List DBMatchPlayer)
    (hnd : (ps.map (fun mp => mp.heroId)).Nodup) : heroErrors ps = [] := by
  unfold heroErrors
  rw [List.map_eq_nil_iff]
  rw [List.filter_eq_nil_iff]
  intro e he
  have h1 := heroUsage_entry ps e he
  have h2 := heroPlayers_length_le_one ps hnd e.1
  rw [h1]
  simp only [decide_eq_true_eq]
  omega

/-- A hero held by at least two participations produces its duplication
error, listing all its players. -/
theorem heroErrors_mem_of_dup (ps : List DBMatchPlayer) (h : Int)
    (hd : 2 ≤ (heroPlayers ps h).length) :
    (⟨"hero", none, .heroDuplicate h (heroPlayers ps h), .error⟩ : ValidationError)
      ∈ heroErrors ps := by
  have hne : ¬ (heroPlayers ps h).isEmpty = true := by
    cases hp : heroPlayers ps h with
    | nil => rw [hp] at hd; simp at hd
    | cons a l => simp
  have hl := heroUsage_lookup ps h
  rw [if_neg hne] at hl
  unfold huLookup at hl
  rcases Option.map_eq_some'.mp hl with ⟨e0, hfind, he2⟩
  have he1 : e0.1 = h := by simpa using List.find?_some hfind
  have hmem := List.mem_of_find?_eq_some hfind
  unfold heroErrors
  apply List.mem_map.mpr
  refine ⟨e0, List.mem_filter.mpr ⟨hmem, ?_⟩, ?_⟩
  · rw [he2]
    simp only [decide_eq_true_eq]
    omega
  · rw [he1, he2]

/-- The error list of `validateMatchEdit`, spelled out. -/
theorem validateMatchEdit_errors (matchData : DBMatch) (ps : List DBMatchPlayer)
    (now oneYearAgo : Int) :
    (validateMatchEdit matchData ps now oneYearAgo).errors =
      ((if (ps.filter (fun p => decide (p.team = Team.Titans))).length = 0 then
          [⟨"teams", none, .titansEmpty, .error⟩] else []) ++
       (if (ps.filter (fun p => decide (p.team = Team.Atlanteans))).length = 0 then
          [⟨"teams", none, .atlanteansEmpty, .error⟩] else []))
      ++ heroErrors ps ++ ps.flatMap playerErrors := rfl

/-- `isValid` is exactly emptiness of the error list. -/
theorem validateMatchEdit_isValid (matchData : DBMatch) (ps : List DBMatchPlayer)
    (now oneYearAgo : Int) :
    (validateMatchEdit matchData ps now oneYearAgo).isValid =
      decide ((validateMatchEdit matchData ps now oneYearAgo).errors.length = 0) := rfl

/-- Per-participation statistics errors never carry the `hero` field. -/
theorem playerErrors_field_ne_hero (p : DBMatchPlayer) :
    ∀ e ∈ playerErrors p, e.field ≠ "hero" := by
  intro e he
  unfold playerErrors at he
  rcases List.mem_append.mp he with h1 | h2
  · rcases List.mem_flatMap.mp h1 with ⟨fv, hfv, hin⟩
    have hf : e.field = fv.1 := by
      rcases fv with ⟨nm, v⟩
      cases v with
      | none => cases hin
      | some x =>
        simp only at hin
        split at hin
        · rcases List.mem_singleton.mp hin with rfl
          rfl
        · cases hin
    rw [hf]
    unfold statFields at hfv
    fin_cases hfv <;> simp
  · split at h2
    · split at h2
      · rcases List.mem_singleton.mp h2 with rfl
        simp
      · cases h2
    · cases h2

/-- C6: hero exclusivity.  If some hero id is assigned to two or more
participations of a match, validation returns `isValid = false` and an error
for that hero whose message lists all affected players; if all hero ids are
distinct, no `hero`-field error is produced. -/
theorem validate_hero_exclusivity (matchData : DBMatch) (ps : List DBMatchPlayer)
    (now oneYearAgo : Int) :
    (∀ h : Int, 2 ≤ (heroPlayers ps h).length →
      (validateMatchEdit matchData ps now oneYearAgo).isValid = false ∧
      (⟨"hero", none, .heroDuplicate h (heroPlayers ps h), .error⟩ : ValidationError)
        ∈ (validateMatchEdit matchData ps now oneYearAgo).errors)
    ∧ ((ps.map (fun mp => mp.heroId)).Nodup →
        ∀ e ∈ (validateMatchEdit matchData ps now oneYearAgo).errors, e.field ≠ "hero") := by
  constructor
  · intro h hd
    have hmem := heroErrors_mem_of_dup ps h hd
    have hmem2 : (⟨"hero", none, .heroDuplicate h (heroPlayers ps h), .error⟩ :
        ValidationError) ∈ (validateMatchEdit matchData ps now oneYearAgo).errors := by
      rw [validateMatchEdit_errors]
      exact List.mem_append.mpr (Or.inl (List.mem_append.mpr (Or.inr hmem)))
    refine ⟨?_, hmem2⟩
    rw [validateMatchEdit_isValid]
    have hpos : 0 < (validateMatchEdit matchData ps now oneYearAgo).errors.length :=
      List.length_pos.mpr (List.ne_nil_of_mem hmem2)
    simp only [decide_eq_false_iff_not]
    omega
  · intro hnd e he
    rw [validateMatchEdit_errors, heroErrors_eq_nil_of_nodup ps hnd] at he
    rcases List.mem_append.mp he with h1 | h2
    · rcases List.mem_append.mp h1 with h3 | h4
      · rcases List.mem_append.mp h3 with h5 | h6
        · split at h5
          · rcases List.mem_singleton.mp h5 with rfl
            simp
          · cases h5
        · split at h6
          · rcases List.mem_singleton.mp h6 with rfl
            simp
          · cases h6
      · cases h4
    · rcases List.mem_flatMap.mp h2 with ⟨p, _, hin⟩
      exact playerErrors_field_ne_hero p e hin

/-- The rescale of the default ordinal reproduces the initial legacy elo. -/
theorem default_elo_rescale :
    jsRound ((ordinalOf defaultRating + 25) * 40 + 200) = INITIAL_ELO := by
  have hord : ordinalOf defaultRating = 0 := by
    norm_num [ordinalOf, defaultRating]
  rw [hord]
  have harg : ((0 : ℚ) + 25) * 40 + 200 + 1 / 2 = 1 / 2 + (1200 : ℤ) := by
    push_cast
    ring
  rw [jsRound, harg, Int.floor_add_int]
  norm_num [INITIAL_ELO]

/-- A freshly created player is at the pre-match defaults. -/
theorem createPlayer_atDefaults (pid nm : String) (now : Int) :
    atDefaults (createPlayer pid nm now) := by
  refine ⟨rfl, rfl, rfl, rfl, rfl, rfl, rfl⟩

/-- Recalculation over an empty match history puts every stored player at
the pre-match defaults. -/
theorem recalc_empty_defaults (rf : RateFn) (ps : List DBPlayer)
    (mps : List DBMatchPlayer) (now : Int) :
    List.Forall atDefaults (recalculatePlayerStats rf ps [] mps now) := by
  rw [List.forall_iff_forall_mem]
  intro q hq
  unfold recalculatePlayerStats at hq
  obtain ⟨p, hp, rfl⟩ := List.mem_map.mp hq
  have hfs : finalState rf (ps.map (fun p => p.id)) [] mps =
      ⟨fun _ => defaultRating, fun _ => zeroStats⟩ := rfl
  unfold atDefaults
  refine ⟨?_, ?_, ?_, ?_, ?_, ?_, ?_⟩ <;>
    simp [applyFinal, hfs, zeroStats, default_elo_rescale]

/-- C7: record-then-delete round trip.  Starting from a store with no match
history, recording one match (which auto-creates its fresh participants) and
then deleting it leaves every stored player — in particular every player
touched by the match — with `mu`, `sigma`, `ordinal`, `elo`, `totalGames`,
`wins` and `losses` at their pre-match default values. -/
theorem record_delete_roundtrip (rf : RateFn) (ps0 : List DBPlayer)
    (md : MatchData) (pd : List PlayerInput) (newMatchId : String)
    (genId : Nat → String) (now1 now2 oya : Int) (s1 s2 : DB)
    (h1 : recordMatch rf ⟨ps0, [], []⟩ md pd newMatchId genId now1 oya = Except.ok s1)
    (h2 : deleteMatch rf s1 newMatchId now2 = Except.ok s2) :
    List.Forall atDefaults s2.players := by
  unfold recordMatch at h1
  by_cases hv : (validateNewMatch md pd now1 oya).isValid = false
  · rw [if_pos hv] at h1
    cases h1
  · rw [if_neg hv] at h1
    have hm : s1.matchList = saveMatchL [] (newMatchRecord md pd newMatchId) := by
      rw [← Except.ok.inj h1]
    have hfind : (saveMatchL ([] : List DBMatch) (newMatchRecord md pd newMatchId)).find?
        (fun m => decide (m.id = newMatchId)) = some (newMatchRecord md pd newMatchId) := by
      show [newMatchRecord md pd newMatchId].find? _ = _
      exact List.find?_cons_of_pos _ (by simp [newMatchRecord])
    have hfilter : (saveMatchL ([] : List DBMatch) (newMatchRecord md pd newMatchId)).filter
        (fun m => decide (¬ m.id = newMatchId)) = [] := by
      show [newMatchRecord md pd newMatchId].filter _ = _
      simp [newMatchRecord]
    unfold deleteMatch at h2
    rw [hm, hfind, hfilter] at h2
    have h2' := Except.ok.inj h2
    rw [← h2']
    exact recalc_empty_defaults rf s1.players (deleteParts s1.matchPlayers newMatchId) now2

/-- C7 witness: the concrete 2v2 record-then-delete instance. -/
theorem record_delete_roundtrip_witness : List.Forall atDefaults wS2.players :=
  record_delete_roundtrip rfId [] wMatchData wPlayerData "m" (fun _ => "p")
    0 0 (-1) wS1 wS2 rfl rfl

/-- A rounded percentage of a `[0, 1]` value lies in `[0, 100]`. -/
theorem jsRound_pct_bounds (c : ℚ) (h0 : 0 ≤ c) (h1 : c ≤ 1) :
    0 ≤ jsRound (c * 100) ∧ jsRound (c * 100) ≤ 100 := by
  unfold jsRound
  constructor
  · apply Int.le_floor.mpr
    push_cast
    nlinarith
  · have h2 : (c * 100 + 1 / 2 : ℚ) < ((101 : ℤ) : ℚ) := by
      push_cast
      nlinarith
    have h3 := Int.floor_lt.mpr h2
    omega

/-- The rounded percentages of `w` and `1 - w` sum to `100`, or to `101` in
the half-integral case. -/
theorem jsRound_complement_sum (w : ℚ) :
    jsRound (w * 100) + jsRound ((1 - w) * 100) = 100 ∨
    jsRound (w * 100) + jsRound ((1 - w) * 100) = 101 := by
  unfold jsRound
  have harg : ((1 - w) * 100 + 1 / 2 : ℚ) = -(w * 100 + 1 / 2) + ((101 : ℤ) : ℚ) := by
    push_cast
    ring
  rw [harg, Int.floor_add_int, Int.floor_neg]
  have h1 := Int.floor_le_ceil (w * 100 + 1 / 2 : ℚ)
  have h2 := Int.ceil_le_floor_add_one (w * 100 + 1 / 2 : ℚ)
  omega

/-- `ciSpec` holds of the result record built from any three `[0, 1]` CDF
values. -/
theorem ciSpec_of_cdf (w lo hi : ℚ) (hw : 0 ≤ w ∧ w ≤ 1) (hlo : 0 ≤ lo ∧ lo ≤ 1)
    (hhi : 0 ≤ hi ∧ hi ≤ 1) :
    ciSpec ⟨jsRound (w * 100), jsRound (lo * 100), jsRound (hi * 100),
            jsRound ((1 - w) * 100), jsRound ((1 - hi) * 100),
            jsRound ((1 - lo) * 100)⟩ := by
  unfold ciSpec
  exact ⟨jsRound_pct_bounds w hw.1 hw.2,
    jsRound_pct_bounds lo hlo.1 hlo.2,
    jsRound_pct_bounds hi hhi.1 hhi.2,
    jsRound_pct_bounds (1 - w) (by linarith [hw.2]) (by linarith [hw.1]),
    jsRound_pct_bounds (1 - hi) (by linarith [hhi.2]) (by linarith [hhi.1]),
    jsRound_pct_bounds (1 - lo) (by linarith [hlo.2]) (by linarith [hlo.1]),
    jsRound_complement_sum w⟩

/-- C3 (amended): for every square-root function and every CDF function with
values in `[0, 1]` (in particular the libraries' ones), all six percentages
returned by `calculateWinProbabilityWithCI` lie in `[0, 100]`, and the two
teams' point estimates sum to `100` or `101` — `101` exactly when the
rounded point estimate falls on a half-integer. -/
theorem winProbabilityWithCI_bounds (sqrtFn : ℚ → ℚ) (normCdf : ℚ → ℚ → ℚ)
    (players : List DBPlayer) (team1Players team2Players : List String)
    (hcdf : ∀ sd x, 0 ≤ normCdf sd x ∧ normCdf sd x ≤ 1) :
    ciSpec (calculateWinProbabilityWithCI sqrtFn normCdf players
      team1Players team2Players) :=
  ciSpec_of_cdf _ _ _ (hcdf _ _) (hcdf _ _) (hcdf _ _)

/-- C3 witness: the bounds at a concrete constant CDF. -/
theorem winProbabilityWithCI_bounds_witness :
    ciSpec (calculateWinProbabilityWithCI (fun _ => 0) (fun _ _ => 1 / 2)
      [] ["a"] ["b"]) :=
  winProbabilityWithCI_bounds (fun _ => 0) (fun _ _ => 1 / 2) [] ["a"] ["b"]
    (fun _ _ => by norm_num)

/-- C3 counterexample: at a CDF value of `1/8` (a value in `[0, 1]`, as the
external CDF can produce) the two point estimates are `13` and `88`: they do
not sum to exactly 100, refuting the claim as stated. -/
theorem winProbabilityWithCI_sum_counterexample :
    (calculateWinProbabilityWithCI (fun _ => 0) (fun _ _ => 1 / 8)
        [] ["a"] ["b"]).team1Probability +
    (calculateWinProbabilityWithCI (fun _ => 0) (fun _ _ => 1 / 8)
        [] ["a"] ["b"]).team2Probability ≠ 100 := by
  have h1 : (calculateWinProbabilityWithCI (fun _ => 0) (fun _ _ => 1 / 8)
      [] ["a"] ["b"]).team1Probability = jsRound ((1 / 8 : ℚ) * 100) := rfl
  have h2 : (calculateWinProbabilityWithCI (fun _ => 0) (fun _ _ => 1 / 8)
      [] ["a"] ["b"]).team2Probability = jsRound ((1 - 1 / 8 : ℚ) * 100) := rfl
  have e1 : jsRound ((1 / 8 : ℚ) * 100) = 13 := by
    have harg : ((1 / 8 : ℚ) * 100 + 1 / 2) = ((13 : ℤ) : ℚ) := by norm_num
    rw [jsRound, harg, Int.floor_intCast]
  have e2 : jsRound ((1 - 1 / 8 : ℚ) * 100) = 88 := by
    have harg : ((1 - 1 / 8 : ℚ) * 100 + 1 / 2) = ((88 : ℤ) : ℚ) := by norm_num
    rw [jsRound, harg, Int.floor_intCast]
  rw [h1, h2, e1, e2]
  decide

end GoA
